import Mathlib

/-!
Shallow embedding of the `monitor-input` command-line tool
(files `src/cli.rs`, `src/monitor.rs`, `src/input_source.rs`).

Rust machine integers are modelled as `Nat` with explicit bounds where the
width matters; fallible Rust functions returning `anyhow::Result` are
modelled with `Except String`; the external DDC/CI collaborator
(`ddc_hi::Display`) is modelled as oracle fields recorded on each monitor
(whether a hardware read / write / capability refresh succeeds), together
with event counters (`capCalls`, `readCalls`, `writes`, `sleeps`) that make
the hardware interactions observable for frame-effect reasoning.
-/

namespace MonitorInput

deriving instance DecidableEq for Except

/-! ## Character and string helpers (Rust `str` primitives) -/

/-- ASCII lower-casing of one character, as in Rust `eq_ignore_ascii_case`. -/
def asciiLower (c : Char) : Char :=
  if 65 ≤ c.toNat && c.toNat ≤ 90 then Char.ofNat (c.toNat + 32) else c

/-- Rust `str::eq_ignore_ascii_case`. -/
def eqIgnoreAsciiCase (a b : String) : Bool :=
  a.toList.map asciiLower == b.toList.map asciiLower

/-- Accumulate the decimal value of a digit list; `none` on a non-digit. -/
def digitsValAux : Nat → List Char → Option Nat
  | acc, [] => some acc
  | acc, c :: rest =>
    if c.isDigit then digitsValAux (acc * 10 + (c.toNat - 48)) rest else none

/-- Rust unsigned-integer `FromStr`: an optional leading `+`, then one or
more ASCII digits, and the value must fit in the type (`≤ bound`). -/
def parseNatBounded (bound : Nat) (s : String) : Option Nat :=
  let cs := s.toList
  let cs := match cs with
    | '+' :: rest => rest
    | other => other
  match cs with
  | [] => none
  | _ =>
    match digitsValAux 0 cs with
    | some v => if v ≤ bound then some v else none
    | none => none

/-- Rust `str::parse::<u8>()`. -/
def parseU8 (s : String) : Option Nat := parseNatBounded 255 s

/-- Rust `str::parse::<usize>()` (64-bit). -/
def parseUsize (s : String) : Option Nat := parseNatBounded (2 ^ 64 - 1) s

/-- Rust `str::contains` on character lists: `needle` occurs as a
contiguous infix of `hay` (the empty needle always occurs). -/
def listContainsSub : List Char → List Char → Bool
  | hay, needle =>
    if needle.isPrefixOf hay then true
    else
      match hay with
      | [] => false
      | _ :: t => listContainsSub t needle

/-- Rust `str::contains` on strings. -/
def strContains (hay needle : String) : Bool :=
  listContainsSub hay.toList needle.toList

/-! ## `src/input_source.rs` -/

/-- The `InputSource` enum (`src/input_source.rs`). -/
inductive InputSource where
  | DisplayPort1
  | DisplayPort2
  | Hdmi1
  | Hdmi2
  | UsbC1
  | UsbC2
deriving DecidableEq, Repr, Fintype

/-- The `#[repr(u8)]` discriminant of each variant. -/
def InputSource.as_raw : InputSource → Nat
  | .DisplayPort1 => 0x0F
  | .DisplayPort2 => 0x10
  | .Hdmi1 => 0x11
  | .Hdmi2 => 0x12
  | .UsbC1 => 0x19
  | .UsbC2 => 0x1B

/-- The strum serialization of each variant (`serialize = "DP1"` / `"DP2"`
replaces the variant name; the others use the variant name). This is both
the string accepted by `EnumString::from_str` (ASCII-case-insensitively)
and the string produced by `AsRefStr::as_ref`. -/
def InputSource.serialization : InputSource → String
  | .DisplayPort1 => "DP1"
  | .DisplayPort2 => "DP2"
  | .Hdmi1 => "Hdmi1"
  | .Hdmi2 => "Hdmi2"
  | .UsbC1 => "UsbC1"
  | .UsbC2 => "UsbC2"

/-- All variants, in declaration order. -/
def InputSource.all : List InputSource :=
  [.DisplayPort1, .DisplayPort2, .Hdmi1, .Hdmi2, .UsbC1, .UsbC2]

/-- strum `EnumString::from_str` with `ascii_case_insensitive`. -/
def InputSource.from_str (s : String) : Option InputSource :=
  InputSource.all.find? fun c => eqIgnoreAsciiCase s c.serialization

/-- strum `FromRepr::from_repr`. -/
def InputSource.from_repr (v : Nat) : Option InputSource :=
  InputSource.all.find? fun c => c.as_raw == v

/-- `InputSource::raw_from_str` (`src/input_source.rs:57`): numeric
passthrough via `parse::<u8>()`, otherwise named lookup, otherwise an
error embedding the input string. -/
def InputSource.raw_from_str (input : String) : Except String Nat :=
  match parseU8 input with
  | some value => .ok value
  | none =>
    match InputSource.from_str input with
    | some c => .ok c.as_raw
    | none => .error ("\"" ++ input ++ "\" is not a valid input source")

/-- `InputSource::str_from_raw` (`src/input_source.rs:74`): the canonical
name when the code is a named constant, else its decimal string. -/
def InputSource.str_from_raw (value : Nat) : String :=
  match InputSource.from_repr value with
  | some c => c.serialization
  | none => toString value

/-! ## `Cli::compute_toggle_set_index` (`src/cli.rs:130`) -/

/-- Rust `Iterator::position`: index of the first element satisfying `p`. -/
def position (p : Nat → Bool) : List Nat → Option Nat
  | [] => none
  | x :: xs => if p x then some 0 else (position p xs).map (· + 1)

/-- `Cli::compute_toggle_set_index`: one past the position of the current
input source in the list, or `0` if it is not in the list. -/
def compute_toggle_set_index (current_input_source : Nat)
    (input_sources : List Nat) : Nat :=
  match position (fun v => v == current_input_source) input_sources with
  | some i => i + 1
  | none => 0

/-! ## `src/monitor.rs`

A `Monitor` wraps one `ddc_hi::Display`. The external collaborator's
behaviour is an oracle recorded on the monitor: `hwInput` is the value the
hardware currently reports for VCP feature 0x60, `readOk` / `writeOk` /
`capOk` say whether the corresponding hardware calls succeed. The counters
`capCalls`, `readCalls`, `writes` and `sleeps` record every delegation to
the collaborator so that frame effects are observable. -/

structure Monitor where
  /-- `ddc_hi_display.info.id`, the identifier used by `contains`. -/
  id : String
  /-- `ddc_hi_display.info.backend` as a string. -/
  backend : String
  /-- `ddc_hi_display.info.model_name`. -/
  model_name : Option String
  /-- The value the hardware reports for the input-select feature. -/
  hwInput : Nat
  /-- Whether `get_vcp_feature` succeeds on this display. -/
  readOk : Bool
  /-- Whether `set_vcp_feature` succeeds on this display. -/
  writeOk : Bool
  /-- Whether `ddc_hi::Display::update_capabilities` succeeds. -/
  capOk : Bool
  /-- The input-source values advertised by the capability string
  (`mccs_database`), available once capabilities were fetched. -/
  advertised : Option (List Nat)
  /-- `is_capabilities_updated` flag (`src/monitor.rs:21`). -/
  is_capabilities_updated : Bool
  /-- `needs_sleep` flag (`src/monitor.rs:22`). -/
  needs_sleep : Bool
  /-- Counter of delegations to the collaborator's capability refresh. -/
  capCalls : Nat
  /-- Counter of hardware reads (`get_vcp_feature`). -/
  readCalls : Nat
  /-- Log of values actually written to the hardware. -/
  writes : List Nat
  /-- Counter of settle sleeps actually performed. -/
  sleeps : Nat
deriving DecidableEq, Repr

/-- `Monitor::contains` (`src/monitor.rs:98`). -/
def Monitor.contains (m : Monitor) (name : String) : Bool :=
  strContains m.id name

/-- `Monitor::contains_backend` (`src/monitor.rs:90`). -/
def Monitor.contains_backend (m : Monitor) (backend : String) : Bool :=
  strContains m.backend backend

/-- `Monitor::update_capabilities` (`src/monitor.rs:72`): no-op when the
flag is already set; otherwise the flag is set first, then the refresh is
delegated to the collaborator, whose result is returned. -/
def Monitor.update_capabilities (m : Monitor) : Monitor × Except String Unit :=
  if m.is_capabilities_updated then (m, .ok ())
  else
    let m := { m with is_capabilities_updated := true, capCalls := m.capCalls + 1 }
    if m.capOk then (m, .ok ())
    else (m, .error (m.id ++ ": Failed to update capabilities"))

/-- `Monitor::current_input_source` (`src/monitor.rs:117`): a live
hardware read of the input-select feature, no caching. -/
def Monitor.current_input_source (m : Monitor) : Monitor × Except String Nat :=
  let m := { m with readCalls := m.readCalls + 1 }
  if m.readOk then (m, .ok m.hwInput)
  else (m, .error (m.id ++ ": failed to get the current input source"))

/-- `Monitor::set_current_input_source` (`src/monitor.rs:123`). The
global `DRY_RUN` flag is threaded as the `dry_run` parameter. In dry-run
mode the function returns success before touching the hardware; on a
successful hardware write `needs_sleep` is set. -/
def Monitor.set_current_input_source (dry_run : Bool) (value : Nat)
    (m : Monitor) : Monitor × Except String Unit :=
  if dry_run then (m, .ok ())
  else if m.writeOk then
    ({ m with hwInput := value, writes := m.writes ++ [value],
              needs_sleep := true }, .ok ())
  else (m, .error (m.id ++ ": failed to set the input source"))

/-- `Monitor::input_sources` (`src/monitor.rs:141`): the advertised value
set from the capability database, populated only by a successful
capability refresh. -/
def Monitor.input_sources (m : Monitor) : Option (List Nat) :=
  if m.is_capabilities_updated && m.capOk then m.advertised else none

/-- `Monitor::sleep_if_needed` (`src/monitor.rs:153`): sleep and clear the
flag when `needs_sleep` is set, otherwise a no-op. -/
def Monitor.sleep_if_needed (m : Monitor) : Monitor :=
  if m.needs_sleep then { m with needs_sleep := false, sleeps := m.sleeps + 1 }
  else m

/-- `Monitor::to_long_string` (`src/monitor.rs:164`): builds the
multi-line description; the advisory hardware read happens (and is
recorded), and a read failure degrades to inline error text. -/
def Monitor.to_long_string (m : Monitor) : Monitor × String :=
  let (m, input_source) := m.current_input_source
  let lines := [m.id,
    "Input Source: " ++
      (match input_source with
       | .ok value => InputSource.str_from_raw value
       | .error e => e)]
  let lines := match m.input_sources with
    | some vs =>
      lines ++ ["Input Sources: " ++
        String.intercalate ", " (vs.map InputSource.str_from_raw)]
    | none => lines
  let lines := match m.model_name with
    | some model => lines ++ ["Model: " ++ model]
    | none => lines
  let lines := lines ++ ["Backend: " ++ m.backend]
  (m, String.intercalate "\n    " lines)

/-! ## `src/cli.rs`: the `Cli` structure and dispatch -/

structure Cli where
  monitors : List Monitor
  backend : Option String
  needs_capabilities : Bool
  dry_run : Bool
  verbose : Nat
  set_index : Option Nat
  args : List String
deriving DecidableEq, Repr

/-- `Cli::apply_filters` (`src/cli.rs:90`): retain only the monitors whose
backend name contains the filter string. -/
def Cli.apply_filters (cli : Cli) : Cli :=
  match cli.backend with
  | some backend_str =>
    { cli with monitors := cli.monitors.filter fun m => m.contains_backend backend_str }
  | none => cli

/-- The substring-mode loop of `Cli::for_each` (`src/cli.rs:111`): visit
every monitor in order, refresh capabilities first when requested
(discarding the error), skip non-matching monitors, call the callback on
each match, and stop early on the first callback error. The Rust closure's
captured mutable state is threaded explicitly as `s : σ`. Returns the
updated monitors, the final state, whether any monitor matched, and the
first callback error if one occurred. -/
def forEachLoop {σ : Type} (needs_capabilities : Bool) (name : String)
    (callback : σ → Nat → Monitor → σ × Monitor × Except String Unit) :
    List Monitor → Nat → σ → Bool →
    List Monitor × σ × Bool × Option String
  | [], _, s, has_match => ([], s, has_match, none)
  | m :: rest, index, s, has_match =>
    let m := if needs_capabilities then m.update_capabilities.1 else m
    if name.length > 0 && !(m.contains name) then
      let (rest', s', hm', e) := forEachLoop needs_capabilities name callback rest (index + 1) s has_match
      (m :: rest', s', hm', e)
    else
      match callback s index m with
      | (s', m', .error e) => (m' :: rest, s', true, some e)
      | (s', m', .ok ()) =>
        let (rest', s'', hm', e) := forEachLoop needs_capabilities name callback rest (index + 1) s' true
        (m' :: rest', s'', hm', e)

/-- `Cli::for_each` (`src/cli.rs:98`). Numeric tokens are direct indices
(the Rust out-of-bounds indexing panic is modelled as an error result);
other tokens run the substring-matching loop, failing when no monitor
matched. The callback's captured state is threaded as `s0 : σ`. -/
def Cli.for_each {σ : Type} (cli : Cli) (name : String) (s0 : σ)
    (callback : σ → Nat → Monitor → σ × Monitor × Except String Unit) :
    Cli × σ × Except String Unit :=
  match parseUsize name with
  | some index =>
    if h : index < cli.monitors.length then
      let monitor := cli.monitors.get ⟨index, h⟩
      let monitor := if cli.needs_capabilities then monitor.update_capabilities.1 else monitor
      let (s, monitor, r) := callback s0 index monitor
      ({ cli with monitors := cli.monitors.set index monitor }, s, r)
    else (cli, s0, .error ("index out of bounds: " ++ toString index))
  | none =>
    let (ms, s, has_match, e) :=
      forEachLoop cli.needs_capabilities name callback cli.monitors 0 s0 false
    match e with
    | some err => ({ cli with monitors := ms }, s, .error err)
    | none =>
      if has_match then ({ cli with monitors := ms }, s, .ok ())
      else ({ cli with monitors := ms }, s,
        .error ("No display monitors found for \"" ++ name ++ "\"."))

/-- The decoding loop at the top of `Cli::toggle` (`src/cli.rs:142`):
decode every value in order, stopping at the first failure. -/
def decodeList : List String → Except String (List Nat)
  | [] => .ok []
  | v :: rest =>
    match InputSource.raw_from_str v with
    | .error e => .error e
    | .ok x =>
      match decodeList rest with
      | .error e => .error e
      | .ok xs => .ok (x :: xs)

/-- The callback closure inside `Cli::toggle` (`src/cli.rs:147`): on the
first monitor that needs it, read the current input source and compute the
set-index; then write the value at the index clamped to the list length. -/
def toggleCallback (dry_run : Bool) (input_sources : List Nat)
    (s : Option Nat) (_index : Nat) (m : Monitor) :
    Option Nat × Monitor × Except String Unit :=
  match s with
  | none =>
    match m.current_input_source with
    | (m, .error e) => (none, m, .error e)
    | (m, .ok current) =>
      let s := some (compute_toggle_set_index current input_sources)
      let used_index := min s.get! (input_sources.length - 1)
      match input_sources.get? used_index with
      | some input_source => (s, m.set_current_input_source dry_run input_source)
      | none => (s, m, .error ("index out of bounds: " ++ toString used_index))
  | some i =>
    let used_index := min i (input_sources.length - 1)
    match input_sources.get? used_index with
    | some input_source => (s, m.set_current_input_source dry_run input_source)
    | none => (s, m, .error ("index out of bounds: " ++ toString used_index))

/-- `Cli::toggle` (`src/cli.rs:141`): decode all values first, then run
the dispatch with the toggle callback starting from the persistent
`set_index`, and store the final index back into the `Cli`. -/
def Cli.toggle (cli : Cli) (name : String) (values : List String) :
    Cli × Except String Unit :=
  match decodeList values with
  | .error e => (cli, .error e)
  | .ok input_sources =>
    let (cli, s, r) :=
      cli.for_each name cli.set_index (toggleCallback cli.dry_run input_sources)
    ({ cli with set_index := s }, r)

/-- Rust `str::split(',')` on character lists: comma-separated groups,
always at least one (possibly empty) group. -/
def splitCommaList : List Char → List (List Char)
  | [] => [[]]
  | c :: rest =>
    if c == ',' then [] :: splitCommaList rest
    else
      match splitCommaList rest with
      | [] => [[c]]
      | g :: gs => (c :: g) :: gs

/-- Rust `value.split(',').collect()` on strings. -/
def splitComma (s : String) : List String :=
  (splitCommaList s.toList).map String.mk

/-- `Cli::set` (`src/cli.rs:168`): comma-separated values toggle;
otherwise decode the single value and set it on every matched monitor. -/
def Cli.set (cli : Cli) (name value : String) : Cli × Except String Unit :=
  let toggle_values := splitComma value
  if toggle_values.length > 1 then cli.toggle name toggle_values
  else
    match InputSource.raw_from_str value with
    | .error e => (cli, .error e)
    | .ok input_source =>
      let (cli, _, r) := cli.for_each name ()
        (fun _ _ m => ((), m.set_current_input_source cli.dry_run input_source))
      (cli, r)

/-- `Cli::print_list` (`src/cli.rs:179`): print the long description of
every matched monitor (the advisory read inside `to_long_string` is the
only monitor effect). -/
def Cli.print_list (cli : Cli) (name : String) : Cli × Except String Unit :=
  let (cli, _, r) := cli.for_each name ()
    (fun _ _ m => ((), (m.to_long_string.1, .ok ())))
  (cli, r)

/-- `Cli::sleep_all_if_needed` (`src/cli.rs:187`). -/
def Cli.sleep_all_if_needed (cli : Cli) : Cli :=
  { cli with monitors := cli.monitors.map Monitor.sleep_if_needed }

/-- The regex `^([^=]+)=(.+)$` (`src/cli.rs:195`) applied to one
argument: split at the first `=`; the name part must be non-empty (and by
construction contains no `=`), the value part must be non-empty and, since
`.` does not match a newline, must contain no newline. -/
def splitAtFirstEq : List Char → Option (List Char × List Char)
  | [] => none
  | c :: rest =>
    if c == '=' then some ([], rest)
    else (splitAtFirstEq rest).map fun p => (c :: p.1, p.2)

/-- Captures of `RE_SET_PATTERN` on an argument, as `(name, value)`. -/
def reSetCaptures (s : String) : Option (String × String) :=
  match splitAtFirstEq s.toList with
  | some (name, value) =>
    if name ≠ [] && value ≠ [] && value.all (fun c => c ≠ '\n') then
      some (String.mk name, String.mk value)
    else none
  | none => none

/-- The argument loop of `Cli::run` (`src/cli.rs:206`): assignment
arguments run `set`, others run `print_list`; the first error aborts the
loop. Returns the updated state, whether any argument was processed, and
the result. -/
def Cli.run_args : Cli → List String → Bool → Cli × Bool × Except String Unit
  | cli, [], has_valid_args => (cli, has_valid_args, .ok ())
  | cli, arg :: rest, _has_valid_args =>
    match reSetCaptures arg with
    | some (name, value) =>
      match cli.set name value with
      | (cli, .ok ()) => cli.run_args rest true
      | (cli, .error e) => (cli, true, .error e)
    | none =>
      match cli.print_list arg with
      | (cli, .ok ()) => cli.run_args rest true
      | (cli, .error e) => (cli, true, .error e)

/-- `Cli::run` (`src/cli.rs:198`): apply the backend filter, process every
argument (an empty argument list behaves as one empty lookup), and only on
success settle-sleep every monitor once. -/
def Cli.run (cli : Cli) : Cli × Except String Unit :=
  let cli := cli.apply_filters
  match cli.run_args cli.args false with
  | (cli, _, .error e) => (cli, .error e)
  | (cli, has_valid_args, .ok ()) =>
    if !has_valid_args then
      match cli.print_list "" with
      | (cli, .ok ()) => (cli.sleep_all_if_needed, .ok ())
      | (cli, .error e) => (cli, .error e)
    else (cli.sleep_all_if_needed, .ok ())

/-! ## Theorems

Helper lemmas are shared; each claim is settled by one dedicated theorem. -/

theorem position_eq_some_of_first (p : Nat → Bool) (l : List Nat) (i : Nat)
    (hi : i < l.length) (hp : p (l.get ⟨i, hi⟩) = true)
    (hfirst : ∀ j (hj : j < l.length), j < i → p (l.get ⟨j, hj⟩) = false) :
    position p l = some i := by
  induction l generalizing i with
  | nil => exact absurd hi (Nat.not_lt_zero i)
  | cons x xs ih =>
    cases i with
    | zero =>
      simp only [List.get] at hp
      simp [position, hp]
    | succ i =>
      have hx : p x = false := hfirst 0 (Nat.succ_le_succ (Nat.zero_le _)) (Nat.succ_pos i)
      have hi' : i < xs.length := Nat.lt_of_succ_lt_succ hi
      have hrec := ih i hi' hp
        (fun j hj hji => hfirst (j + 1) (Nat.succ_lt_succ hj) (Nat.succ_lt_succ hji))
      simp [position, hx, hrec]

theorem position_eq_none_of_all (p : Nat → Bool) (l : List Nat)
    (h : ∀ x ∈ l, p x = false) : position p l = none := by
  induction l with
  | nil => rfl
  | cons x xs ih =>
    have hx : p x = false := h x (List.mem_cons_self x xs)
    simp [position, hx, ih fun y hy => h y (List.mem_cons_of_mem x hy)]

/-- **C1.** `compute_toggle_set_index(c, L)` returns `i + 1` when `i` is
the first position in `L` holding `c`, returns `0` when `c` occurs nowhere
in `L`, and on `L = [1, 4, 9]` gives `1, 2, 3` for current `1, 4, 9` and
`0` for current `0, 2, 10`. -/
theorem compute_toggle_set_index_spec :
    (∀ (c : Nat) (L : List Nat) (i : Nat) (hi : i < L.length),
        L.get ⟨i, hi⟩ = c →
        (∀ j (hj : j < L.length), j < i → L.get ⟨j, hj⟩ ≠ c) →
        compute_toggle_set_index c L = i + 1) ∧
    (∀ (c : Nat) (L : List Nat), c ∉ L → compute_toggle_set_index c L = 0) ∧
    compute_toggle_set_index 1 [1, 4, 9] = 1 ∧
    compute_toggle_set_index 4 [1, 4, 9] = 2 ∧
    compute_toggle_set_index 9 [1, 4, 9] = 3 ∧
    compute_toggle_set_index 0 [1, 4, 9] = 0 ∧
    compute_toggle_set_index 2 [1, 4, 9] = 0 ∧
    compute_toggle_set_index 10 [1, 4, 9] = 0 := by
  refine ⟨?_, ?_, by decide, by decide, by decide, by decide, by decide, by decide⟩
  · intro c L i hi hget hfirst
    have hpos := position_eq_some_of_first (fun v => v == c) L i hi
      (by simpa using hget) (fun j hj hji => by simpa using hfirst j hj hji)
    simp [compute_toggle_set_index, hpos]
  · intro c L hc
    have hpos := position_eq_none_of_all (fun v => v == c) L
      (fun x hx => by
        simp only [beq_eq_false_iff_ne, ne_eq]
        exact fun hxc => hc (hxc ▸ hx))
    simp [compute_toggle_set_index, hpos]

/-- Witness for C1 at concrete inputs. -/
theorem compute_toggle_set_index_spec_witness :
    compute_toggle_set_index 4 [1, 4, 9] = 2 ∧
    compute_toggle_set_index 7 [1, 4, 9] = 0 :=
  ⟨compute_toggle_set_index_spec.1 4 [1, 4, 9] 1 (by decide) (by decide)
      (by decide),
   compute_toggle_set_index_spec.2.1 7 [1, 4, 9] (by decide)⟩



set_option maxRecDepth 10000 in
/-- **C4.** The input-source codec round-trips: every named constant's
code decodes back from its printed name, and every unnamed byte value
prints as its decimal string (never an error), which decodes back to the
same value. -/
theorem input_source_codec_roundtrip :
    (∀ c : InputSource,
        InputSource.raw_from_str (InputSource.str_from_raw c.as_raw) =
          .ok c.as_raw) ∧
    (∀ v : Fin 256, (∀ c : InputSource, c.as_raw ≠ v.val) →
        InputSource.str_from_raw v.val = toString v.val ∧
        InputSource.raw_from_str (toString v.val) = .ok v.val) := by
  constructor
  · intro c
    cases c <;> rfl
  · decide

/-- Witness for C4 at the named constant `Hdmi1` and the unnamed byte
`255`. -/
theorem input_source_codec_roundtrip_witness :
    InputSource.raw_from_str
        (InputSource.str_from_raw InputSource.Hdmi1.as_raw) =
      .ok InputSource.Hdmi1.as_raw ∧
    (InputSource.str_from_raw 255 = toString (255 : Nat) ∧
     InputSource.raw_from_str (toString (255 : Nat)) = .ok 255) :=
  ⟨input_source_codec_roundtrip.1 InputSource.Hdmi1,
   input_source_codec_roundtrip.2 ⟨255, by decide⟩ (by decide)⟩

/-! ### Concrete fixtures used by witnesses and counterexamples -/

/-- A sample healthy monitor whose identifier is `"M1"`. -/
def sampleMonitor : Monitor :=
  { id := "M1", backend := "winapi", model_name := none, hwInput := 17,
    readOk := true, writeOk := true, capOk := true, advertised := none,
    is_capabilities_updated := false, needs_sleep := false, capCalls := 0,
    readCalls := 0, writes := [], sleeps := 0 }

/-- A sample `Cli` owning `sampleMonitor`, with default options. -/
def sampleCli : Cli :=
  { monitors := [sampleMonitor], backend := none, needs_capabilities := false,
    dry_run := false, verbose := 0, set_index := none, args := [] }

/-- `sampleCli` with the `--capabilities` option set. -/
def capsCli : Cli := { sampleCli with needs_capabilities := true }

/-! ### C6: `Monitor::update_capabilities` idempotence -/

/-- **C6.** `update_capabilities` is idempotent within a run: a first call
sets the fetched flag (delegating exactly once, and surfacing a refresh
failure as an error); any call on an already-fetched monitor is the
identity returning success; the flag is `true` after every call. -/
theorem update_capabilities_idempotent :
    (∀ m : Monitor, m.is_capabilities_updated = false →
        m.update_capabilities.1.is_capabilities_updated = true ∧
        m.update_capabilities.1.capCalls = m.capCalls + 1 ∧
        (m.update_capabilities.2 = .ok () ↔ m.capOk = true)) ∧
    (∀ m : Monitor, m.is_capabilities_updated = true →
        m.update_capabilities = (m, .ok ())) ∧
    (∀ m : Monitor, m.update_capabilities.1.is_capabilities_updated = true) ∧
    (∀ m : Monitor,
        m.update_capabilities.1.update_capabilities =
          (m.update_capabilities.1, .ok ())) := by
  have h2 : ∀ m : Monitor, m.is_capabilities_updated = true →
      m.update_capabilities = (m, .ok ()) := by
    intro m hm
    unfold Monitor.update_capabilities
    simp [hm]
  have h3 : ∀ m : Monitor,
      m.update_capabilities.1.is_capabilities_updated = true := by
    intro m
    unfold Monitor.update_capabilities
    rcases hm : m.is_capabilities_updated with _ | _ <;>
      rcases hcap : m.capOk with _ | _ <;> simp [hm, hcap]
  refine ⟨fun m hm => ?_, h2, h3, fun m => h2 _ (h3 m)⟩
  unfold Monitor.update_capabilities
  rcases hcap : m.capOk with _ | _ <;> simp [hm, hcap]

/-- Witness for C6 on `sampleMonitor`. -/
theorem update_capabilities_idempotent_witness :
    (sampleMonitor.update_capabilities.1.is_capabilities_updated = true ∧
     sampleMonitor.update_capabilities.1.capCalls = sampleMonitor.capCalls + 1 ∧
     (sampleMonitor.update_capabilities.2 = .ok () ↔
       sampleMonitor.capOk = true)) ∧
    sampleMonitor.update_capabilities.1.update_capabilities =
      (sampleMonitor.update_capabilities.1, .ok ()) :=
  ⟨update_capabilities_idempotent.1 sampleMonitor rfl,
   update_capabilities_idempotent.2.2.2 sampleMonitor⟩

/-! ### C8: numeric token out of range -/

/-- **C8.** A numeric token whose index is at least the number of monitors
is a fatal indexing error: for every callback, `for_each` returns the
unchanged `Cli`, the unchanged callback state (so the callback was never
invoked), and an error rather than success. -/
theorem for_each_index_out_of_range :
    ∀ (σ : Type) (cli : Cli) (name : String) (s0 : σ)
      (callback : σ → Nat → Monitor → σ × Monitor × Except String Unit)
      (index : Nat),
      parseUsize name = some index → cli.monitors.length ≤ index →
      cli.for_each name s0 callback =
        (cli, s0, .error ("index out of bounds: " ++ toString index)) := by
  intro σ cli name s0 callback index hparse hle
  unfold Cli.for_each
  rw [hparse]
  simp [Nat.not_lt_of_le hle]

/-- Witness for C8: token `"5"` against a single-monitor list. -/
theorem for_each_index_out_of_range_witness :
    sampleCli.for_each "5" () (fun s _ m => (s, m, .ok ())) =
      (sampleCli, (), .error ("index out of bounds: " ++ toString 5)) :=
  for_each_index_out_of_range Unit sampleCli "5" ()
    (fun s _ m => (s, m, .ok ())) 5 (by decide) (by decide)

/-! ### C3: index mode and capability refresh -/

/-- **C3 counterexample.** The claim says index mode never calls
`update_capabilities`, even when the needs-capabilities option is set. In
the code (`src/cli.rs:104`) index mode does refresh: running `for_each`
with token `"0"` on a `Cli` whose option is set leaves the single monitor
with its capabilities-fetched flag raised and one recorded delegation to
the collaborator's refresh, although it started with the flag down and no
delegations. -/
theorem for_each_index_mode_refresh_counterexample :
    ((capsCli.for_each "0" () (fun s _ m => (s, m, .ok ()))).1.monitors.map
      fun m => (m.is_capabilities_updated, m.capCalls)) = [(true, 1)] ∧
    sampleMonitor.is_capabilities_updated = false ∧
    sampleMonitor.capCalls = 0 ∧
    capsCli.monitors = [sampleMonitor] ∧
    capsCli.needs_capabilities = true := by
  exact ⟨rfl, rfl, rfl, rfl, rfl⟩

/-- **C3 (amended).** For a numeric token in range, `for_each` applies to
the single indexed monitor the same best-effort capability refresh as
substring mode — `update_capabilities` runs exactly when the
needs-capabilities option is set, its error discarded — then invokes the
callback once on that monitor; every other monitor is untouched. -/
theorem for_each_index_mode_spec :
    ∀ (σ : Type) (cli : Cli) (name : String) (s0 : σ)
      (callback : σ → Nat → Monitor → σ × Monitor × Except String Unit)
      (index : Nat), parseUsize name = some index →
      ∀ hlt : index < cli.monitors.length, ∀ m1 : Monitor,
      m1 = (if cli.needs_capabilities
            then (cli.monitors.get ⟨index, hlt⟩).update_capabilities.1
            else cli.monitors.get ⟨index, hlt⟩) →
      (cli.for_each name s0 callback =
        ({ cli with monitors := cli.monitors.set index (callback s0 index m1).2.1 },
         (callback s0 index m1).1, (callback s0 index m1).2.2)) ∧
      (∀ j, j ≠ index →
        (cli.for_each name s0 callback).1.monitors[j]? = cli.monitors[j]?) := by
  intro σ cli name s0 callback index hparse hlt m1 hm1
  subst hm1
  have key : cli.for_each name s0 callback =
      ({ cli with monitors :=
          cli.monitors.set index (callback s0 index
            (if cli.needs_capabilities
             then (cli.monitors.get ⟨index, hlt⟩).update_capabilities.1
             else cli.monitors.get ⟨index, hlt⟩)).2.1 },
       (callback s0 index
            (if cli.needs_capabilities
             then (cli.monitors.get ⟨index, hlt⟩).update_capabilities.1
             else cli.monitors.get ⟨index, hlt⟩)).1,
       (callback s0 index
            (if cli.needs_capabilities
             then (cli.monitors.get ⟨index, hlt⟩).update_capabilities.1
             else cli.monitors.get ⟨index, hlt⟩)).2.2) := by
    unfold Cli.for_each
    rw [hparse]
    simp only [hlt, dif_pos]
  refine ⟨key, fun j hj => ?_⟩
  rw [key]
  exact List.getElem?_set_ne (fun h => hj h.symm)

/-- Witness for C3's amended theorem: with the option set, monitor 1 of a
hypothetical list is untouched by token `"0"`; instantiated on `capsCli`. -/
theorem for_each_index_mode_spec_witness :
    (capsCli.for_each "0" () (fun (s : Unit) _ m => (s, m, .ok ()))).1.monitors[1]? =
      capsCli.monitors[1]? :=
  (for_each_index_mode_spec Unit capsCli "0" ()
    (fun s _ m => (s, m, .ok ())) 0 (by decide) (by decide)
    (sampleMonitor.update_capabilities.1) (by decide)).2 1 (by decide)

/-! ### C10: toggle decodes all values before any dispatch -/

theorem decodeList_append_error :
    ∀ (pre : List String) (v : String) (post : List String) (e : String),
      (∀ w ∈ pre, ∃ x, InputSource.raw_from_str w = .ok x) →
      InputSource.raw_from_str v = .error e →
      decodeList (pre ++ v :: post) = .error e := by
  intro pre
  induction pre with
  | nil =>
    intro v post e _ hv
    simp [decodeList, hv]
  | cons w ws ih =>
    intro v post e hpre hv
    obtain ⟨x, hx⟩ := hpre w (List.mem_cons_self w ws)
    simp [decodeList, hx,
      ih v post e (fun u hu => hpre u (List.mem_cons_of_mem _ hu)) hv]

/-- **C10.** If any value token of a toggle list fails to decode (with all
earlier tokens decoding), `toggle` returns that token's error with the
`Cli` completely unchanged — no monitor was dispatched to, no
`set_current_input_source` happened, and the stored set-index is intact. -/
theorem toggle_decode_atomic :
    ∀ (cli : Cli) (name : String) (pre post : List String) (v e : String),
      (∀ w ∈ pre, ∃ x, InputSource.raw_from_str w = .ok x) →
      InputSource.raw_from_str v = .error e →
      cli.toggle name (pre ++ v :: post) = (cli, .error e) := by
  intro cli name pre post v e hpre hv
  unfold Cli.toggle
  rw [decodeList_append_error pre v post e hpre hv]

/-- Witness for C10: `["17", "xyz"]` fails on `"xyz"` and leaves
`sampleCli` untouched. -/
theorem toggle_decode_atomic_witness :
    sampleCli.toggle "M" ["17", "xyz"] =
      (sampleCli, .error "\"xyz\" is not a valid input source") :=
  toggle_decode_atomic sampleCli "M" ["17"] [] "xyz"
    "\"xyz\" is not a valid input source"
    (by
      intro w hw
      simp only [List.mem_singleton] at hw
      subst hw
      exact ⟨17, rfl⟩)
    rfl

/-! ### Step abbreviations and frame lemmas for the dispatch loop -/

/-- The per-monitor capability step of the loop: refresh when the option
is set (result discarded), else leave the monitor alone. -/
def capsStep (needs : Bool) (m : Monitor) : Monitor :=
  if needs then m.update_capabilities.1 else m

/-- The loop's skip condition (`src/cli.rs:117`). -/
def skipsName (name : String) (m : Monitor) : Bool :=
  name.length > 0 && !(m.contains name)

theorem update_capabilities_fst (m : Monitor) :
    m.update_capabilities.1 =
      { m with is_capabilities_updated := true,
               capCalls := if m.is_capabilities_updated then m.capCalls
                           else m.capCalls + 1 } := by
  rcases m with ⟨mid, mbackend, mmodel, mhw, mro, mwo, mco, madv, micu, mns, mcc, mrc, mw, msl⟩
  unfold Monitor.update_capabilities
  cases micu <;> cases mco <;> simp

@[simp] theorem capsStep_id (needs : Bool) (m : Monitor) :
    (capsStep needs m).id = m.id := by
  unfold capsStep
  split <;> simp [update_capabilities_fst]

@[simp] theorem capsStep_hwInput (needs : Bool) (m : Monitor) :
    (capsStep needs m).hwInput = m.hwInput := by
  unfold capsStep
  split <;> simp [update_capabilities_fst]

@[simp] theorem capsStep_readOk (needs : Bool) (m : Monitor) :
    (capsStep needs m).readOk = m.readOk := by
  unfold capsStep
  split <;> simp [update_capabilities_fst]

@[simp] theorem capsStep_writeOk (needs : Bool) (m : Monitor) :
    (capsStep needs m).writeOk = m.writeOk := by
  unfold capsStep
  split <;> simp [update_capabilities_fst]

@[simp] theorem capsStep_readCalls (needs : Bool) (m : Monitor) :
    (capsStep needs m).readCalls = m.readCalls := by
  unfold capsStep
  split <;> simp [update_capabilities_fst]

@[simp] theorem capsStep_writes (needs : Bool) (m : Monitor) :
    (capsStep needs m).writes = m.writes := by
  unfold capsStep
  split <;> simp [update_capabilities_fst]

@[simp] theorem capsStep_sleeps (needs : Bool) (m : Monitor) :
    (capsStep needs m).sleeps = m.sleeps := by
  unfold capsStep
  split <;> simp [update_capabilities_fst]

@[simp] theorem capsStep_needs_sleep (needs : Bool) (m : Monitor) :
    (capsStep needs m).needs_sleep = m.needs_sleep := by
  unfold capsStep
  split <;> simp [update_capabilities_fst]

@[simp] theorem capsStep_contains (needs : Bool) (m : Monitor) (name : String) :
    (capsStep needs m).contains name = m.contains name := by
  unfold Monitor.contains
  rw [capsStep_id]

@[simp] theorem skipsName_capsStep (needs : Bool) (name : String) (m : Monitor) :
    skipsName name (capsStep needs m) = skipsName name m := by
  unfold skipsName
  rw [capsStep_contains]

theorem current_input_source_ok (m : Monitor) (h : m.readOk = true) :
    m.current_input_source =
      ({ m with readCalls := m.readCalls + 1 }, .ok m.hwInput) := by
  unfold Monitor.current_input_source
  simp [h]

@[simp] theorem current_input_source_fst_readCalls (m : Monitor) :
    m.current_input_source.1.readCalls = m.readCalls + 1 := by
  rcases h : m.readOk with _ | _ <;> simp [Monitor.current_input_source, h]

theorem set_current_input_source_dry (v : Nat) (m : Monitor) :
    m.set_current_input_source true v = (m, .ok ()) := rfl

theorem set_current_input_source_writeOk (v : Nat) (m : Monitor)
    (h : m.writeOk = true) :
    m.set_current_input_source false v =
      ({ m with hwInput := v, writes := m.writes ++ [v], needs_sleep := true },
       .ok ()) := by
  unfold Monitor.set_current_input_source
  simp [h]

theorem set_current_ok (dry : Bool) (v : Nat) (m : Monitor)
    (h : dry = true ∨ m.writeOk = true) :
    (m.set_current_input_source dry v).2 = .ok () := by
  unfold Monitor.set_current_input_source
  rcases h with h | h
  · simp [h]
  · rcases hd : dry with _ | _ <;> simp [hd, h]

@[simp] theorem set_current_fst_readCalls (dry : Bool) (v : Nat) (m : Monitor) :
    (m.set_current_input_source dry v).1.readCalls = m.readCalls := by
  unfold Monitor.set_current_input_source
  rcases dry with _ | _ <;> rcases hw : m.writeOk with _ | _ <;> simp [hw]

/-! ### Behaviour of the toggle callback and loop once the index is fixed -/

theorem skipsName_eq (name : String) (m : Monitor) :
    (name.length > 0 && !(m.contains name)) = skipsName name m := rfl

theorem capsStep_eq (needs : Bool) (m : Monitor) :
    (if needs then m.update_capabilities.1 else m) = capsStep needs m := rfl

theorem toggleCallback_some (dry : Bool) (l : List Nat) (i idx : Nat)
    (m : Monitor) (v : Nat) (hv : l.get? (min i (l.length - 1)) = some v) :
    toggleCallback dry l (some i) idx m =
      (some i, m.set_current_input_source dry v) := by
  unfold toggleCallback
  rw [List.get?_eq_getElem?] at hv
  simp [hv]

theorem toggleLoop_some (dry : Bool) (l : List Nat) (i v : Nat)
    (hv : l.get? (min i (l.length - 1)) = some v)
    (needs : Bool) (name : String) :
    ∀ (ms : List Monitor) (idx : Nat) (hm : Bool),
      (∀ m ∈ ms, dry = true ∨ m.writeOk = true) →
      forEachLoop needs name (toggleCallback dry l) ms idx (some i) hm =
        (ms.map fun m =>
           if skipsName name m then capsStep needs m
           else ((capsStep needs m).set_current_input_source dry v).1,
         some i,
         hm || ms.any fun m => !(skipsName name m),
         none) := by
  intro ms
  induction ms with
  | nil =>
    intro idx hm _
    simp [forEachLoop]
  | cons m rest ih =>
    intro idx hm hw
    have hwm : dry = true ∨ m.writeOk = true := hw m (List.mem_cons_self m rest)
    have hwrest : ∀ u ∈ rest, dry = true ∨ u.writeOk = true :=
      fun u hu => hw u (List.mem_cons_of_mem _ hu)
    have hok : ((capsStep needs m).set_current_input_source dry v).2 = .ok () := by
      apply set_current_ok
      rcases hwm with h | h
      · exact Or.inl h
      · exact Or.inr (by rw [capsStep_writeOk]; exact h)
    rcases hsc : (capsStep needs m).set_current_input_source dry v with ⟨m2, r⟩
    have hr : r = .ok () := by rw [hsc] at hok; exact hok
    subst hr
    simp only [forEachLoop, capsStep_eq, skipsName_eq, skipsName_capsStep]
    rcases hskip : skipsName name m with _ | _
    · -- the monitor matches: callback runs, succeeds, loop continues
      rw [toggleCallback_some dry l i idx (capsStep needs m) v hv, hsc]
      simp only [ih (idx + 1) true hwrest]
      simp [hskip, hsc]
    · -- the monitor is skipped
      simp only [if_true]
      simp [ih (idx + 1) hm hwrest, hskip]

theorem toggleLoop_some_no_read (dry : Bool) (l : List Nat) (i : Nat)
    (needs : Bool) (name : String) :
    ∀ (ms : List Monitor) (idx : Nat) (hm : Bool),
      (forEachLoop needs name (toggleCallback dry l) ms idx (some i) hm).2.1 =
        some i ∧
      (forEachLoop needs name (toggleCallback dry l) ms idx (some i) hm).1.map
          Monitor.readCalls =
        ms.map Monitor.readCalls := by
  intro ms
  induction ms with
  | nil =>
    intro idx hm
    simp [forEachLoop]
  | cons m rest ih =>
    intro idx hm
    simp only [forEachLoop, capsStep_eq, skipsName_eq, skipsName_capsStep]
    rcases hskip : skipsName name m with _ | _
    · rcases hget : l.get? (min i (l.length - 1)) with _ | v
      · have hcb : toggleCallback dry l (some i) idx (capsStep needs m) =
            (some i, capsStep needs m,
             .error ("index out of bounds: " ++ toString (min i (l.length - 1)))) := by
          unfold toggleCallback
          rw [List.get?_eq_getElem?] at hget
          simp [hget]
        rw [hcb]
        simp [hskip]
      · have hcb := toggleCallback_some dry l i idx (capsStep needs m) v hget
        rcases hsc : (capsStep needs m).set_current_input_source dry v with ⟨m2, r⟩
        have hm2 : m2.readCalls = m.readCalls := by
          have h := set_current_fst_readCalls dry v (capsStep needs m)
          rw [hsc] at h
          simpa using h
        rcases r with e | u
        · rw [hcb, hsc]
          simp [hskip, hm2]
        · cases u
          rw [hcb, hsc]
          simp [hskip, hm2, ih (idx + 1) true]
    · simp [hskip, ih (idx + 1) hm]

theorem forEachLoop_skip_pre {σ : Type} (needs : Bool) (name : String)
    (cb : σ → Nat → Monitor → σ × Monitor × Except String Unit) :
    ∀ (pre ms : List Monitor) (idx : Nat) (s : σ) (hm : Bool),
      (∀ u ∈ pre, skipsName name u = true) →
      forEachLoop needs name cb (pre ++ ms) idx s hm =
        (pre.map (capsStep needs) ++
          (forEachLoop needs name cb ms (idx + pre.length) s hm).1,
         (forEachLoop needs name cb ms (idx + pre.length) s hm).2) := by
  intro pre
  induction pre with
  | nil =>
    intro ms idx s hm _
    simp
  | cons u us ih =>
    intro ms idx s hm hpre
    have hu : skipsName name u = true := hpre u (List.mem_cons_self u us)
    have hus : ∀ w ∈ us, skipsName name w = true :=
      fun w hw => hpre w (List.mem_cons_of_mem _ hw)
    have harith : idx + 1 + us.length = idx + (us.length + 1) := by omega
    simp only [List.cons_append, forEachLoop, capsStep_eq, skipsName_eq,
      skipsName_capsStep, hu, if_true, List.append_eq]
    rw [ih ms (idx + 1) s hm hus]
    simp [harith]

theorem toggleLoop_none_first (dry : Bool) (l : List Nat) (needs : Bool)
    (name : String) (m : Monitor) (rest : List Monitor)
    (hmatch : skipsName name m = false) (hread : m.readOk = true) :
    ∀ (idx : Nat) (hm : Bool),
      (forEachLoop needs name (toggleCallback dry l) (m :: rest) idx none
          hm).2.1 =
        some (compute_toggle_set_index m.hwInput l) := by
  intro idx hm
  have hread1 : (capsStep needs m).readOk = true := by
    rw [capsStep_readOk]
    exact hread
  have hcur := current_input_source_ok (capsStep needs m) hread1
  simp only [forEachLoop, capsStep_eq, skipsName_eq, skipsName_capsStep, hmatch]
  rcases hget : l.get? (min (compute_toggle_set_index m.hwInput l)
      (l.length - 1)) with _ | v
  · have hcb : toggleCallback dry l none idx (capsStep needs m) =
        (some (compute_toggle_set_index m.hwInput l),
         { capsStep needs m with
             readCalls := (capsStep needs m).readCalls + 1 },
         .error ("index out of bounds: " ++
           toString (min (compute_toggle_set_index m.hwInput l)
             (l.length - 1)))) := by
      unfold toggleCallback
      rw [hcur]
      rw [List.get?_eq_getElem?] at hget
      simp [hget, capsStep_hwInput]
    rw [hcb]
    simp
  · have hcb : toggleCallback dry l none idx (capsStep needs m) =
        (some (compute_toggle_set_index m.hwInput l),
         ({ capsStep needs m with
             readCalls :=
               (capsStep needs m).readCalls + 1 }).set_current_input_source
           dry v) := by
      unfold toggleCallback
      rw [hcur]
      rw [List.get?_eq_getElem?] at hget
      simp [hget, capsStep_hwInput]
    rcases hsc : ({ capsStep needs m with
        readCalls :=
          (capsStep needs m).readCalls + 1 }).set_current_input_source
        dry v with ⟨m2, r⟩
    rcases r with e | u
    · rw [hcb, hsc]
      simp
    · cases u
      rw [hcb, hsc]
      simp [(toggleLoop_some_no_read dry l
        (compute_toggle_set_index m.hwInput l) needs name rest (idx + 1)
        true).1]

/-! ### Projections of `for_each` and `toggle` -/

theorem for_each_substring_monitors {σ : Type} (cli : Cli) (name : String)
    (s0 : σ) (cb : σ → Nat → Monitor → σ × Monitor × Except String Unit)
    (h : parseUsize name = none) :
    (cli.for_each name s0 cb).1.monitors =
      (forEachLoop cli.needs_capabilities name cb cli.monitors 0 s0 false).1 ∧
    (cli.for_each name s0 cb).2.1 =
      (forEachLoop cli.needs_capabilities name cb cli.monitors 0 s0
        false).2.1 := by
  unfold Cli.for_each
  rw [h]
  rcases hl : forEachLoop cli.needs_capabilities name cb cli.monitors 0 s0
      false with ⟨ms, s, hmB, e⟩
  rcases e with _ | e
  · rcases hmB with _ | _ <;> simp [hl]
  · simp [hl]

theorem for_each_substring_result {σ : Type} (cli : Cli) (name : String)
    (s0 : σ) (cb : σ → Nat → Monitor → σ × Monitor × Except String Unit)
    (h : parseUsize name = none) :
    (cli.for_each name s0 cb).2.2 =
      (match (forEachLoop cli.needs_capabilities name cb cli.monitors 0 s0
          false).2.2.2 with
       | some e => .error e
       | none =>
         if (forEachLoop cli.needs_capabilities name cb cli.monitors 0 s0
             false).2.2.1 then .ok ()
         else .error ("No display monitors found for \"" ++ name ++ "\".")) := by
  unfold Cli.for_each
  rw [h]
  rcases hl : forEachLoop cli.needs_capabilities name cb cli.monitors 0 s0
      false with ⟨ms, s, hmB, e⟩
  rcases e with _ | e
  · rcases hmB with _ | _ <;> simp [hl]
  · simp [hl]

theorem for_each_fields {σ : Type} (cli : Cli) (name : String) (s0 : σ)
    (cb : σ → Nat → Monitor → σ × Monitor × Except String Unit) :
    (cli.for_each name s0 cb).1.set_index = cli.set_index ∧
    (cli.for_each name s0 cb).1.dry_run = cli.dry_run ∧
    (cli.for_each name s0 cb).1.needs_capabilities = cli.needs_capabilities ∧
    (cli.for_each name s0 cb).1.backend = cli.backend ∧
    (cli.for_each name s0 cb).1.args = cli.args := by
  unfold Cli.for_each
  rcases hp : parseUsize name with _ | idx
  · rcases hl : forEachLoop cli.needs_capabilities name cb cli.monitors 0 s0
        false with ⟨ms, s, hmB, e⟩
    rcases e with _ | e
    · rcases hmB with _ | _ <;> simp [hl]
    · simp [hl]
  · by_cases hlt : idx < cli.monitors.length
    · rcases hc : cb s0 idx (if cli.needs_capabilities then
          (cli.monitors.get ⟨idx, hlt⟩).update_capabilities.1
        else cli.monitors.get ⟨idx, hlt⟩) with ⟨s, m2, r⟩
      simp [hlt, hc]
    · simp [hlt]

theorem toggle_eq (cli : Cli) (name : String) (values : List String)
    (l : List Nat) (hdec : decodeList values = .ok l) :
    cli.toggle name values =
      ({ (cli.for_each name cli.set_index
            (toggleCallback cli.dry_run l)).1 with
          set_index := (cli.for_each name cli.set_index
            (toggleCallback cli.dry_run l)).2.1 },
       (cli.for_each name cli.set_index (toggleCallback cli.dry_run l)).2.2) := by
  unfold Cli.toggle
  rw [hdec]

/-! ### C7: the applied index is clamped to the list length -/

/-- **C7.** When the toggle set-index `i` is applied to a monitor, the
index actually used is `min(i, list.length - 1)`: for a non-empty list an
index past the end selects the last element, and the value written to
every matched monitor is `list[min(i, list.length - 1)]`. -/
theorem toggle_clamps_to_list_end :
    ∀ (cli : Cli) (name : String) (values : List String) (l : List Nat)
      (i v : Nat),
      cli.set_index = some i →
      parseUsize name = none →
      decodeList values = .ok l →
      l.get? (min i (l.length - 1)) = some v →
      (∀ m ∈ cli.monitors, cli.dry_run = true ∨ m.writeOk = true) →
      (min i (l.length - 1) = if i < l.length then i else l.length - 1) ∧
      (∀ hl : l ≠ [], l.length ≤ i → v = l.getLast hl) ∧
      ((cli.toggle name values).1.monitors =
        cli.monitors.map fun m =>
          if skipsName name m then capsStep cli.needs_capabilities m
          else ((capsStep cli.needs_capabilities m).set_current_input_source
            cli.dry_run v).1) := by
  intro cli name values l i v hs hname hdec hv hw
  have hlen : min i (l.length - 1) < l.length := by
    rcases l with _ | ⟨x, xs⟩
    · rw [List.get?_eq_getElem?] at hv
      simp at hv
    · simp only [List.length_cons]
      omega
  refine ⟨?_, ?_, ?_⟩
  · rcases Nat.lt_or_ge i l.length with h | h
    · rw [if_pos h]
      exact Nat.min_eq_left (by omega)
    · rw [if_neg (Nat.not_lt_of_le h)]
      exact Nat.min_eq_right (by omega)
  · intro hl hle
    have hmin : min i (l.length - 1) = l.length - 1 := Nat.min_eq_right (by omega)
    rw [hmin, List.get?_eq_getElem?, ← List.getLast?_eq_getElem?,
      List.getLast?_eq_getLast l hl] at hv
    exact (Option.some_inj.mp hv).symm
  · rw [toggle_eq cli name values l hdec]
    dsimp only
    rw [(for_each_substring_monitors cli name cli.set_index
      (toggleCallback cli.dry_run l) hname).1, hs]
    rw [toggleLoop_some cli.dry_run l i v hv cli.needs_capabilities name
      cli.monitors 0 false hw]

/-- `sampleCli` with a stored set-index of `5`, used by the C7 witness. -/
def clampCli : Cli := { sampleCli with set_index := some 5 }

/-- Witness for C7: stored index `5` against the two-element list
`[17, 18]` writes the last element `18` to the matched monitor. -/
theorem toggle_clamps_to_list_end_witness :
    (clampCli.toggle "M" ["17", "18"]).1.monitors =
      clampCli.monitors.map fun m =>
        if skipsName "M" m then capsStep false m
        else ((capsStep false m).set_current_input_source false 18).1 :=
  (toggle_clamps_to_list_end clampCli "M" ["17", "18"] [17, 18] 5 18 rfl
    (by decide) (by decide) (by decide) (by decide)).2.2

/-! ### C2: the set-index persists across toggle arguments -/

/-- A monitor currently on input `5`, used by the C2 counterexample. -/
def toggledMonitor : Monitor :=
  { id := "M1", backend := "winapi", model_name := none, hwInput := 5,
    readOk := true, writeOk := true, capOk := true, advertised := none,
    is_capabilities_updated := false, needs_sleep := false, capCalls := 0,
    readCalls := 0, writes := [], sleeps := 0 }

/-- An invocation with two toggle arguments for the same monitor. -/
def twoToggleCli : Cli :=
  { monitors := [toggledMonitor], backend := none,
    needs_capabilities := false, dry_run := false, verbose := 0,
    set_index := none, args := ["M=5,6", "M=7,8,9"] }

/-- **C2 counterexample.** The claim says each toggle argument's index is
computed from that argument's own first monitor read. Running the
invocation `["M=5,6", "M=7,8,9"]` on one monitor currently at `5`: the
first argument reads `5`, computes index `1` and writes `6`; the second
argument performs **no** read (total reads stay `1`) and reuses the stored
index `1`, writing `8` — whereas a fresh computation from the monitor's
current value `6`, absent from `[7, 8, 9]`, would give index `0` and write
`7 ≠ 8`. -/
theorem toggle_index_reused_across_args_counterexample :
    ((twoToggleCli.run).1.monitors.map fun m => (m.writes, m.readCalls)) =
      [([6, 8], 1)] ∧
    (twoToggleCli.run).1.set_index = some 1 ∧
    compute_toggle_set_index 6 [7, 8, 9] = 0 ∧
    [7, 8, 9].get? (min 0 ([7, 8, 9].length - 1)) = some 7 ∧
    (8 : Nat) ≠ 7 :=
  ⟨by decide, by decide, by decide, by decide, by decide⟩

/-- **C2 (amended).** The toggle set-index is computed at most once per
command invocation, not once per toggle argument: (1) whenever the stored
index is already present, `toggle` keeps it verbatim, performs no
current-input-source read on any monitor, and every matched monitor is
written with the value this index selects; (2) when the stored index is
absent, it is computed from the first matched monitor's current input
source and stored back into the `Cli`, where subsequent toggle arguments
of the same invocation will reuse it. -/
theorem toggle_set_index_once_per_invocation :
    (∀ (cli : Cli) (name : String) (values : List String) (l : List Nat)
        (i : Nat),
        cli.set_index = some i → decodeList values = .ok l →
        parseUsize name = none →
        (cli.toggle name values).1.set_index = some i ∧
        (cli.toggle name values).1.monitors.map Monitor.readCalls =
          cli.monitors.map Monitor.readCalls) ∧
    (∀ (cli : Cli) (name : String) (values : List String) (l : List Nat)
        (pre post : List Monitor) (m : Monitor),
        cli.set_index = none → decodeList values = .ok l →
        parseUsize name = none →
        cli.monitors = pre ++ m :: post →
        (∀ u ∈ pre, skipsName name u = true) →
        skipsName name m = false →
        m.readOk = true →
        (cli.toggle name values).1.set_index =
          some (compute_toggle_set_index m.hwInput l)) := by
  constructor
  · intro cli name values l i hs hdec hname
    rw [toggle_eq cli name values l hdec]
    dsimp only
    rw [hs]
    constructor
    · rw [(for_each_substring_monitors cli name (some i)
        (toggleCallback cli.dry_run l) hname).2]
      exact (toggleLoop_some_no_read cli.dry_run l i cli.needs_capabilities
        name cli.monitors 0 false).1
    · rw [(for_each_substring_monitors cli name (some i)
        (toggleCallback cli.dry_run l) hname).1]
      exact (toggleLoop_some_no_read cli.dry_run l i cli.needs_capabilities
        name cli.monitors 0 false).2
  · intro cli name values l pre post m hs hdec hname hmons hpre hmatch hread
    rw [toggle_eq cli name values l hdec]
    dsimp only
    rw [hs,
      (for_each_substring_monitors cli name none
        (toggleCallback cli.dry_run l) hname).2,
      hmons,
      forEachLoop_skip_pre cli.needs_capabilities name
        (toggleCallback cli.dry_run l) pre (m :: post) 0 none false hpre]
    dsimp only
    exact toggleLoop_none_first cli.dry_run l cli.needs_capabilities name m
      post hmatch hread (0 + pre.length) false

/-- Witness for C2's amended theorem: with a stored index, toggling keeps
it and reads nothing; with no stored index, the first matched monitor's
current value determines the stored index. -/
theorem toggle_set_index_once_per_invocation_witness :
    ((clampCli.toggle "M" ["17", "18"]).1.set_index = some 5 ∧
     (clampCli.toggle "M" ["17", "18"]).1.monitors.map Monitor.readCalls =
       clampCli.monitors.map Monitor.readCalls) ∧
    (sampleCli.toggle "M" ["17", "18"]).1.set_index =
      some (compute_toggle_set_index sampleMonitor.hwInput [17, 18]) :=
  ⟨toggle_set_index_once_per_invocation.1 clampCli "M" ["17", "18"]
      [17, 18] 5 rfl (by decide) (by decide),
   toggle_set_index_once_per_invocation.2 sampleCli "M" ["17", "18"]
      [17, 18] [] [] sampleMonitor rfl (by decide) (by decide) rfl
      (by simp) (by decide) rfl⟩

/-! ### C5: substring mode of `for_each` -/

theorem skipsName_eq_not_matched (name : String) (m : Monitor) :
    skipsName name m = !(name.length == 0 || m.contains name) := by
  unfold skipsName
  rcases hc : m.contains name with _ | _ <;>
    rcases hn : name.length with _ | k <;> simp [hc, hn]

theorem forEachLoop_no_error {σ : Type} (needs : Bool) (name : String)
    (cb : σ → Nat → Monitor → σ × Monitor × Except String Unit)
    (hcb : ∀ s i m, (cb s i m).2.2 = .ok ()) :
    ∀ (ms : List Monitor) (idx : Nat) (s : σ) (hm : Bool),
      (forEachLoop needs name cb ms idx s hm).2.2.2 = none ∧
      (forEachLoop needs name cb ms idx s hm).2.2.1 =
        (hm || ms.any fun m => !(skipsName name m)) := by
  intro ms
  induction ms with
  | nil =>
    intro idx s hm
    simp [forEachLoop]
  | cons m rest ih =>
    intro idx s hm
    simp only [forEachLoop, capsStep_eq, skipsName_eq, skipsName_capsStep]
    rcases hskip : skipsName name m with _ | _
    · rcases hc : cb s idx (capsStep needs m) with ⟨s2, m2, r⟩
      have hr : r = .ok () := by
        have h := hcb s idx (capsStep needs m)
        rw [hc] at h
        exact h
      subst hr
      simp [hskip, hc, ih (idx + 1) s2 true]
    · simp [hskip, ih (idx + 1) s hm]

theorem forEachLoop_all_skip {σ : Type} (needs : Bool) (name : String)
    (cb : σ → Nat → Monitor → σ × Monitor × Except String Unit)
    (ms : List Monitor) (s : σ)
    (hall : ∀ u ∈ ms, skipsName name u = true) :
    (forEachLoop needs name cb ms 0 s false).2.2.2 = none ∧
    (forEachLoop needs name cb ms 0 s false).2.2.1 = false := by
  have h := forEachLoop_skip_pre needs name cb ms [] 0 s false hall
  rw [List.append_nil] at h
  rw [h]
  exact ⟨rfl, rfl⟩

theorem forEachLoop_logger (needs : Bool) (name : String) :
    ∀ (ms : List Monitor) (idx : Nat) (acc : List Nat) (hm : Bool),
      (forEachLoop needs name
        (fun acc i m => (acc ++ [i], m, .ok ())) ms idx acc hm).2.1 =
        acc ++ ((ms.enumFrom idx).filter fun p =>
          !(skipsName name p.2)).map Prod.fst := by
  intro ms
  induction ms with
  | nil =>
    intro idx acc hm
    simp [forEachLoop]
  | cons m rest ih =>
    intro idx acc hm
    simp only [forEachLoop, capsStep_eq, skipsName_eq, skipsName_capsStep,
      List.enumFrom]
    rcases hskip : skipsName name m with _ | _
    · simp [hskip, ih (idx + 1) (acc ++ [idx]) true, List.filter_cons]
    · simp [hskip, ih (idx + 1) acc hm, List.filter_cons]

theorem isPrefixOf_self_append : ∀ (n post : List Char),
    n.isPrefixOf (n ++ post) = true := by
  intro n
  induction n with
  | nil =>
    intro post
    rw [List.nil_append]
    cases post <;> rfl
  | cons c cs ih =>
    intro post
    simp [List.isPrefixOf, ih]

theorem listContainsSub_append (pre n post : List Char) :
    listContainsSub (pre ++ (n ++ post)) n = true := by
  induction pre with
  | nil =>
    unfold listContainsSub
    rw [List.nil_append, isPrefixOf_self_append]
    simp
  | cons c cs ih =>
    unfold listContainsSub
    rw [List.cons_append]
    by_cases h : n.isPrefixOf (c :: (cs ++ (n ++ post))) = true
    · simp [h]
    · simp only [Bool.not_eq_true] at h
      simp [h]
      exact ih

/-- The error message of a failed lookup embeds the token. -/
theorem strContains_middle (a n b : String) :
    strContains (a ++ n ++ b) n = true := by
  unfold strContains
  have h : (a ++ n ++ b).toList = a.toList ++ (n.toList ++ b.toList) := by
    simp [String.toList, String.data_append]
  rw [h]
  exact listContainsSub_append a.toList n.toList b.toList

/-- **C5.** For a non-numeric token, `for_each` visits the monitors in
enumeration order and invokes the callback exactly on those matching the
token (empty token or identifier-substring), as the index-logging callback
records; with a never-failing callback the call succeeds iff some monitor
matches; and with zero matches it fails with an error embedding the
unmatched token. -/
theorem for_each_substring_spec :
    ∀ (cli : Cli) (name : String), parseUsize name = none →
      ((cli.for_each name ([] : List Nat)
          (fun acc i m => (acc ++ [i], m, .ok ()))).2.1 =
        (cli.monitors.enum.filter fun p =>
          name.length == 0 || p.2.contains name).map Prod.fst) ∧
      (∀ (σ : Type) (s0 : σ)
          (cb : σ → Nat → Monitor → σ × Monitor × Except String Unit),
          (∀ s i m, (cb s i m).2.2 = .ok ()) →
          ((cli.for_each name s0 cb).2.2 = .ok () ↔
            ∃ m ∈ cli.monitors,
              (name.length == 0 || m.contains name) = true)) ∧
      ((∀ m ∈ cli.monitors, (name.length == 0 || m.contains name) = false) →
        ∀ (σ : Type) (s0 : σ)
          (cb : σ → Nat → Monitor → σ × Monitor × Except String Unit),
          ∃ e, (cli.for_each name s0 cb).2.2 = .error e ∧
            strContains e name = true) := by
  intro cli name hname
  refine ⟨?_, ?_, ?_⟩
  · rw [(for_each_substring_monitors cli name ([] : List Nat)
      (fun acc i m => (acc ++ [i], m, .ok ())) hname).2]
    rw [forEachLoop_logger cli.needs_capabilities name cli.monitors 0 [] false]
    simp only [List.nil_append, List.enum]
    apply congrArg
    apply List.filter_congr
    intro p _
    rw [skipsName_eq_not_matched, Bool.not_not]
  · intro σ s0 cb hcb
    rw [for_each_substring_result cli name s0 cb hname]
    have h := forEachLoop_no_error cli.needs_capabilities name cb hcb
      cli.monitors 0 s0 false
    rw [h.1, h.2]
    simp only [Bool.false_or]
    constructor
    · intro hok
      by_contra hno
      push_neg at hno
      have hany : (cli.monitors.any fun m => !(skipsName name m)) = false := by
        rw [List.any_eq_false]
        intro m hm
        have h2 := hno m hm
        rw [skipsName_eq_not_matched, Bool.not_not]
        simpa using h2
      rw [hany] at hok
      simp at hok
    · intro hex
      obtain ⟨m, hmem, hmatch⟩ := hex
      have hany : (cli.monitors.any fun m => !(skipsName name m)) = true := by
        rw [List.any_eq_true]
        refine ⟨m, hmem, ?_⟩
        rw [skipsName_eq_not_matched, Bool.not_not]
        exact hmatch
      rw [hany]
      rfl
  · intro hnone σ s0 cb
    have hall : ∀ u ∈ cli.monitors, skipsName name u = true := by
      intro u hu
      rw [skipsName_eq_not_matched, hnone u hu]
      rfl
    have h := forEachLoop_all_skip cli.needs_capabilities name cb
      cli.monitors s0 hall
    refine ⟨"No display monitors found for \"" ++ name ++ "\".", ?_, ?_⟩
    · rw [for_each_substring_result cli name s0 cb hname, h.1, h.2]
      rfl
    · exact strContains_middle "No display monitors found for \"" name "\"."

/-- Witness for C5 on concrete monitors: token `"M"` matches monitor 0 and
is logged; token `"Z"` matches nothing and yields an error embedding
`"Z"`. -/
theorem for_each_substring_spec_witness :
    ((sampleCli.for_each "M" ([] : List Nat)
        (fun acc i m => (acc ++ [i], m, .ok ()))).2.1 =
      (sampleCli.monitors.enum.filter fun p =>
        ("M".length == 0 || p.2.contains "M")).map Prod.fst) ∧
    (∃ e, (sampleCli.for_each "Z" ()
        (fun (s : Unit) _ m => (s, m, .ok ()))).2.2 = .error e ∧
      strContains e "Z" = true) :=
  ⟨(for_each_substring_spec sampleCli "M" (by decide)).1,
   (for_each_substring_spec sampleCli "Z" (by decide)).2.2 (by decide) Unit ()
     (fun s _ m => (s, m, .ok ()))⟩

/-! ### C9: dry-run writes touch nothing, so no settle sleep happens -/

/-- The dry-run invariant: no settle pending and no sleep ever performed. -/
def noSleepYet (m : Monitor) : Prop := m.needs_sleep = false ∧ m.sleeps = 0

@[simp] theorem current_fst_needs_sleep (m : Monitor) :
    m.current_input_source.1.needs_sleep = m.needs_sleep := by
  rcases h : m.readOk with _ | _ <;> simp [Monitor.current_input_source, h]

@[simp] theorem current_fst_sleeps (m : Monitor) :
    m.current_input_source.1.sleeps = m.sleeps := by
  rcases h : m.readOk with _ | _ <;> simp [Monitor.current_input_source, h]

theorem to_long_string_fst (m : Monitor) :
    m.to_long_string.1 = m.current_input_source.1 := by
  unfold Monitor.to_long_string
  rcases h : m.current_input_source with ⟨m1, r⟩
  rcases r with e | v <;> simp [h]

theorem capsStep_noSleepYet (needs : Bool) (m : Monitor) :
    noSleepYet m → noSleepYet (capsStep needs m) := by
  intro ⟨h1, h2⟩
  exact ⟨by rw [capsStep_needs_sleep]; exact h1,
         by rw [capsStep_sleeps]; exact h2⟩

theorem current_fst_noSleepYet (m : Monitor) :
    noSleepYet m → noSleepYet m.current_input_source.1 := by
  intro ⟨h1, h2⟩
  exact ⟨by rw [current_fst_needs_sleep]; exact h1,
         by rw [current_fst_sleeps]; exact h2⟩

theorem toggleCallback_dry_noSleepYet (l : List Nat) (s : Option Nat)
    (i : Nat) (m : Monitor) (hP : noSleepYet m) :
    noSleepYet (toggleCallback true l s i m).2.1 := by
  unfold toggleCallback
  rcases s with _ | j
  · rcases h : m.current_input_source with ⟨m1, r⟩
    have hm1 : noSleepYet m1 := by
      have := current_fst_noSleepYet m hP
      rw [h] at this
      exact this
    rcases r with e | c
    · exact hm1
    · rcases hget : l[min (compute_toggle_set_index c l) (l.length - 1)]?
          with _ | v <;> simp [hget, set_current_input_source_dry, hm1]
  · rcases hget : l[min j (l.length - 1)]? with _ | v <;>
      simp [hget, set_current_input_source_dry, hP]

theorem mem_set_cases {α : Type} :
    ∀ (l : List α) (i : Nat) (x y : α), y ∈ l.set i x → y = x ∨ y ∈ l := by
  intro l
  induction l with
  | nil =>
    intro i x y hy
    simp at hy
  | cons a as ih =>
    intro i x y hy
    rcases i with _ | i
    · rcases List.mem_cons.mp hy with h | h
      · exact Or.inl h
      · exact Or.inr (List.mem_cons_of_mem a h)
    · rcases List.mem_cons.mp hy with h | h
      · exact Or.inr (h ▸ List.mem_cons_self a as)
      · rcases ih i x y h with h2 | h2
        · exact Or.inl h2
        · exact Or.inr (List.mem_cons_of_mem a h2)

theorem forEachLoop_preserves {σ : Type} (needs : Bool) (name : String)
    (cb : σ → Nat → Monitor → σ × Monitor × Except String Unit)
    (P : Monitor → Prop)
    (hcaps : ∀ m, P m → P (capsStep needs m))
    (hcb : ∀ s i m, P m → P (cb s i m).2.1) :
    ∀ (ms : List Monitor) (idx : Nat) (s : σ) (hm : Bool),
      (∀ m ∈ ms, P m) →
      ∀ m2 ∈ (forEachLoop needs name cb ms idx s hm).1, P m2 := by
  intro ms
  induction ms with
  | nil =>
    intro idx s hm _ m2 hm2
    simp [forEachLoop] at hm2
  | cons m rest ih =>
    intro idx s hm hms m2 hm2
    have hPm : P m := hms m (List.mem_cons_self m rest)
    have hrest : ∀ u ∈ rest, P u := fun u hu => hms u (List.mem_cons_of_mem m hu)
    simp only [forEachLoop, capsStep_eq] at hm2
    rcases hskip : (name.length > 0 && !((capsStep needs m).contains name))
        with _ | _
    · rw [hskip] at hm2
      simp only [Bool.false_eq_true, if_false] at hm2
      rcases hc : cb s idx (capsStep needs m) with ⟨s2, mcb, r⟩
      have hPmcb : P mcb := by
        have h := hcb s idx (capsStep needs m) (hcaps m hPm)
        rw [hc] at h
        exact h
      rcases r with e | u
      · rw [hc] at hm2
        simp at hm2
        rcases hm2 with h | h
        · exact h ▸ hPmcb
        · exact hrest m2 h
      · cases u
        rw [hc] at hm2
        simp at hm2
        rcases hm2 with h | h
        · exact h ▸ hPmcb
        · exact ih (idx + 1) s2 true hrest m2 (by simpa using h)
    · rw [hskip] at hm2
      simp only [if_true] at hm2
      simp at hm2
      rcases hm2 with h | h
      · exact h ▸ hcaps m hPm
      · exact ih (idx + 1) s hm hrest m2 (by simpa using h)

theorem for_each_index_monitors {σ : Type} (cli : Cli) (name : String)
    (s0 : σ) (cb : σ → Nat → Monitor → σ × Monitor × Except String Unit)
    (idx : Nat) (hp : parseUsize name = some idx)
    (hlt : idx < cli.monitors.length) :
    (cli.for_each name s0 cb).1.monitors =
      cli.monitors.set idx
        (cb s0 idx (capsStep cli.needs_capabilities
          (cli.monitors.get ⟨idx, hlt⟩))).2.1 := by
  unfold Cli.for_each
  rw [hp]
  rcases hc : cb s0 idx (capsStep cli.needs_capabilities
      (cli.monitors.get ⟨idx, hlt⟩)) with ⟨s, m2, r⟩
  simp only [hlt, dif_pos, capsStep_eq, hc]

theorem for_each_index_oob_monitors {σ : Type} (cli : Cli) (name : String)
    (s0 : σ) (cb : σ → Nat → Monitor → σ × Monitor × Except String Unit)
    (idx : Nat) (hp : parseUsize name = some idx)
    (hge : cli.monitors.length ≤ idx) :
    (cli.for_each name s0 cb).1.monitors = cli.monitors := by
  unfold Cli.for_each
  rw [hp]
  simp [Nat.not_lt_of_le hge]

theorem for_each_preserves {σ : Type} (cli : Cli) (name : String)
    (s0 : σ) (cb : σ → Nat → Monitor → σ × Monitor × Except String Unit)
    (P : Monitor → Prop)
    (hcaps : ∀ m, P m → P (capsStep cli.needs_capabilities m))
    (hcb : ∀ s i m, P m → P (cb s i m).2.1)
    (hms : ∀ m ∈ cli.monitors, P m) :
    ∀ m2 ∈ (cli.for_each name s0 cb).1.monitors, P m2 := by
  rcases hp : parseUsize name with _ | idx
  · rw [(for_each_substring_monitors cli name s0 cb hp).1]
    exact forEachLoop_preserves cli.needs_capabilities name cb P hcaps hcb
      cli.monitors 0 s0 false hms
  · by_cases hlt : idx < cli.monitors.length
    · rw [for_each_index_monitors cli name s0 cb idx hp hlt]
      intro m2 hm2
      rcases mem_set_cases cli.monitors idx _ m2 hm2 with h | h
      · subst h
        exact hcb s0 idx _ (hcaps _ (hms _ (cli.monitors.get_mem idx hlt)))
      · exact hms m2 h
    · rw [for_each_index_oob_monitors cli name s0 cb idx hp
        (Nat.le_of_not_lt hlt)]
      exact hms

theorem toggle_dry_run (cli : Cli) (name : String) (values : List String) :
    (cli.toggle name values).1.dry_run = cli.dry_run := by
  unfold Cli.toggle
  rcases hd : decodeList values with e | l
  · rfl
  · rcases h : cli.for_each name cli.set_index (toggleCallback cli.dry_run l)
        with ⟨c, s, r⟩
    have hf := (for_each_fields cli name cli.set_index
      (toggleCallback cli.dry_run l)).2.1
    rw [h] at hf
    simp [h]
    simpa using hf

theorem set_dry_run (cli : Cli) (name value : String) :
    (cli.set name value).1.dry_run = cli.dry_run := by
  unfold Cli.set
  by_cases hs : (splitComma value).length > 1
  · simp only [hs, if_true]
    exact toggle_dry_run cli name (splitComma value)
  · simp only [hs, if_false]
    rcases hd : InputSource.raw_from_str value with e | v
    · rfl
    · rcases h : cli.for_each name ()
          (fun x _ m => (x, m.set_current_input_source cli.dry_run v))
          with ⟨c, s, r⟩
      have hf := (for_each_fields cli name ()
        (fun x _ m => (x, m.set_current_input_source cli.dry_run v))).2.1
      rw [h] at hf
      simp [h]
      simpa using hf

theorem print_dry_run (cli : Cli) (name : String) :
    (cli.print_list name).1.dry_run = cli.dry_run := by
  unfold Cli.print_list
  rcases h : cli.for_each name ()
      (fun x _ m => (x, (m.to_long_string.1, .ok ()))) with ⟨c, s, r⟩
  have hf := (for_each_fields cli name ()
    (fun x _ m => (x, (m.to_long_string.1, .ok ())))).2.1
  rw [h] at hf
  simp [h]
  simpa using hf

theorem toggle_preserves_noSleepYet (cli : Cli) (name : String)
    (values : List String) (hdry : cli.dry_run = true)
    (hms : ∀ m ∈ cli.monitors, noSleepYet m) :
    ∀ m2 ∈ (cli.toggle name values).1.monitors, noSleepYet m2 := by
  unfold Cli.toggle
  rw [hdry]
  rcases hd : decodeList values with e | l
  · exact hms
  · rcases h : cli.for_each name cli.set_index (toggleCallback true l)
        with ⟨c, s, r⟩
    have hp := for_each_preserves cli name cli.set_index
      (toggleCallback true l) noSleepYet
      (fun m hm => capsStep_noSleepYet cli.needs_capabilities m hm)
      (fun s2 i m hm => toggleCallback_dry_noSleepYet l s2 i m hm) hms
    rw [h] at hp
    simpa [h] using hp

theorem set_preserves_noSleepYet (cli : Cli) (name value : String)
    (hdry : cli.dry_run = true)
    (hms : ∀ m ∈ cli.monitors, noSleepYet m) :
    ∀ m2 ∈ (cli.set name value).1.monitors, noSleepYet m2 := by
  unfold Cli.set
  by_cases hs : (splitComma value).length > 1
  · simp only [hs, if_true]
    exact toggle_preserves_noSleepYet cli name (splitComma value) hdry hms
  · simp only [hs, if_false]
    rw [hdry]
    rcases hd : InputSource.raw_from_str value with e | v
    · exact hms
    · rcases h : cli.for_each name ()
          (fun x _ m => (x, m.set_current_input_source true v))
          with ⟨c, s, r⟩
      have hp := for_each_preserves cli name ()
        (fun x _ m => (x, m.set_current_input_source true v)) noSleepYet
        (fun m hm => capsStep_noSleepYet cli.needs_capabilities m hm)
        (fun s2 i m hm => by
          simpa [set_current_input_source_dry] using hm) hms
      rw [h] at hp
      simpa [h] using hp

theorem print_preserves_noSleepYet (cli : Cli) (name : String)
    (hms : ∀ m ∈ cli.monitors, noSleepYet m) :
    ∀ m2 ∈ (cli.print_list name).1.monitors, noSleepYet m2 := by
  unfold Cli.print_list
  rcases h : cli.for_each name ()
      (fun x _ m => (x, (m.to_long_string.1, .ok ()))) with ⟨c, s, r⟩
  have hp := for_each_preserves cli name ()
    (fun x _ m => (x, (m.to_long_string.1, .ok ()))) noSleepYet
    (fun m hm => capsStep_noSleepYet cli.needs_capabilities m hm)
    (fun s2 i m hm => by
      simpa [to_long_string_fst] using current_fst_noSleepYet m hm) hms
  rw [h] at hp
  simpa [h] using hp

theorem run_args_dry_run :
    ∀ (args : List String) (cli : Cli) (hv : Bool),
      (cli.run_args args hv).1.dry_run = cli.dry_run := by
  intro args
  induction args with
  | nil =>
    intro cli hv
    rfl
  | cons a rest ih =>
    intro cli hv
    unfold Cli.run_args
    rcases hcap : reSetCaptures a with _ | ⟨nm, vl⟩
    · dsimp only
      rcases hp : cli.print_list a with ⟨c2, r⟩
      have hd2 : c2.dry_run = cli.dry_run := by
        have h := print_dry_run cli a
        rw [hp] at h
        exact h
      rcases r with e | u
      · simpa using hd2
      · cases u
        dsimp only
        rw [ih c2 true]
        exact hd2
    · dsimp only
      rcases hp : cli.set nm vl with ⟨c2, r⟩
      have hd2 : c2.dry_run = cli.dry_run := by
        have h := set_dry_run cli nm vl
        rw [hp] at h
        exact h
      rcases r with e | u
      · simpa using hd2
      · cases u
        dsimp only
        rw [ih c2 true]
        exact hd2

theorem run_args_preserves_noSleepYet :
    ∀ (args : List String) (cli : Cli) (hv : Bool),
      cli.dry_run = true →
      (∀ m ∈ cli.monitors, noSleepYet m) →
      ∀ m2 ∈ (cli.run_args args hv).1.monitors, noSleepYet m2 := by
  intro args
  induction args with
  | nil =>
    intro cli hv _ hms
    exact hms
  | cons a rest ih =>
    intro cli hv hdry hms
    unfold Cli.run_args
    rcases hcap : reSetCaptures a with _ | ⟨nm, vl⟩
    · dsimp only
      rcases hp : cli.print_list a with ⟨c2, r⟩
      have hc2m : ∀ m ∈ c2.monitors, noSleepYet m := by
        have h := print_preserves_noSleepYet cli a hms
        rw [hp] at h
        exact h
      have hc2d : c2.dry_run = true := by
        have h := print_dry_run cli a
        rw [hp] at h
        rw [h]
        exact hdry
      rcases r with e | u
      · exact hc2m
      · cases u
        dsimp only
        exact ih c2 true hc2d hc2m
    · dsimp only
      rcases hp : cli.set nm vl with ⟨c2, r⟩
      have hc2m : ∀ m ∈ c2.monitors, noSleepYet m := by
        have h := set_preserves_noSleepYet cli nm vl hdry hms
        rw [hp] at h
        exact h
      have hc2d : c2.dry_run = true := by
        have h := set_dry_run cli nm vl
        rw [hp] at h
        rw [h]
        exact hdry
      rcases r with e | u
      · exact hc2m
      · cases u
        dsimp only
        exact ih c2 true hc2d hc2m

theorem sleep_if_needed_noSleep (m : Monitor) (h : m.needs_sleep = false) :
    m.sleep_if_needed = m := by
  unfold Monitor.sleep_if_needed
  simp [h]

theorem sleep_all_noSleep (c : Cli) (h : ∀ m ∈ c.monitors, noSleepYet m) :
    ∀ m2 ∈ (c.sleep_all_if_needed).monitors, m2.sleeps = 0 := by
  unfold Cli.sleep_all_if_needed
  intro m2 hm2
  simp only [List.mem_map] at hm2
  obtain ⟨m, hm, heq⟩ := hm2
  rw [← heq, sleep_if_needed_noSleep m (h m hm).1]
  exact (h m hm).2

theorem apply_filters_dry_run (cli : Cli) :
    (cli.apply_filters).dry_run = cli.dry_run := by
  unfold Cli.apply_filters
  rcases hb : cli.backend with _ | b <;> simp [hb]

theorem apply_filters_args (cli : Cli) :
    (cli.apply_filters).args = cli.args := by
  unfold Cli.apply_filters
  rcases hb : cli.backend with _ | b <;> simp [hb]

theorem apply_filters_mem (cli : Cli) :
    ∀ m ∈ (cli.apply_filters).monitors, m ∈ cli.monitors := by
  unfold Cli.apply_filters
  rcases hb : cli.backend with _ | b
  · simp [hb]
  · intro m hm
    simp only [hb] at hm
    exact (List.mem_filter.mp hm).1

/-- **C9.** In dry-run mode `set_current_input_source` returns success
with the monitor completely untouched — no hardware write is recorded and
the settle-pending flag keeps its value; `sleep_if_needed` is the identity
on a monitor with no settle pending; consequently a whole invocation run
in dry-run mode, starting from monitors with no settle pending and no
sleeps performed, ends with zero sleeps performed on every monitor. -/
theorem dry_run_no_write_no_sleep :
    (∀ (v : Nat) (m : Monitor),
      m.set_current_input_source true v = (m, .ok ())) ∧
    (∀ m : Monitor, m.needs_sleep = false → m.sleep_if_needed = m) ∧
    (∀ cli : Cli, cli.dry_run = true →
      (cli.monitors.all fun m => !m.needs_sleep && m.sleeps == 0) = true →
      ((cli.run).1.monitors.all fun m => m.sleeps == 0) = true) := by
  refine ⟨fun v m => rfl, fun m h => sleep_if_needed_noSleep m h, ?_⟩
  intro cli hdry hall
  have hms : ∀ m ∈ cli.monitors, noSleepYet m := by
    intro m hm
    have h := List.all_eq_true.mp hall m hm
    simp only [Bool.and_eq_true, Bool.not_eq_eq_eq_not, Bool.not_true,
      beq_iff_eq] at h
    exact ⟨by simpa using h.1, h.2⟩
  have hfd : (cli.apply_filters).dry_run = true := by
    rw [apply_filters_dry_run]
    exact hdry
  have hfm : ∀ m ∈ (cli.apply_filters).monitors, noSleepYet m :=
    fun m hm => hms m (apply_filters_mem cli m hm)
  unfold Cli.run
  rcases hra : (cli.apply_filters).run_args (cli.apply_filters).args false
      with ⟨c2, hv, r⟩
  have hc2m : ∀ m ∈ c2.monitors, noSleepYet m := by
    have h := run_args_preserves_noSleepYet (cli.apply_filters).args
      (cli.apply_filters) false hfd hfm
    rw [hra] at h
    exact h
  rcases r with e | u
  · simp only [hra]
    rw [List.all_eq_true]
    intro m hm
    simpa using (hc2m m hm).2
  · cases u
    rcases hhv : hv with _ | _
    · -- no valid argument: the empty lookup runs first
      rcases hpr : c2.print_list "" with ⟨c3, r2⟩
      have hc3m : ∀ m ∈ c3.monitors, noSleepYet m := by
        have h := print_preserves_noSleepYet c2 "" hc2m
        rw [hpr] at h
        exact h
      rcases r2 with e2 | u2
      · simp only [hra, hhv, hpr]
        rw [List.all_eq_true]
        intro m hm
        simpa using (hc3m m hm).2
      · cases u2
        simp only [hra, hhv, hpr]
        rw [List.all_eq_true]
        intro m hm
        simpa using sleep_all_noSleep c3 hc3m m hm
    · simp only [hra, hhv]
      rw [List.all_eq_true]
      intro m hm
      simpa using sleep_all_noSleep c2 hc2m m hm

/-- A dry-run invocation used by the C9 witness. -/
def dryCli : Cli :=
  { monitors := [sampleMonitor], backend := none,
    needs_capabilities := false, dry_run := true, verbose := 0,
    set_index := none, args := ["M=17"] }

/-- Witness for C9: a dry-run write leaves `sampleMonitor` untouched, and
the dry-run invocation `["M=17"]` ends with zero sleeps performed. -/
theorem dry_run_no_write_no_sleep_witness :
    sampleMonitor.set_current_input_source true 17 =
      (sampleMonitor, .ok ()) ∧
    ((dryCli.run).1.monitors.all fun m => m.sleeps == 0) = true :=
  ⟨dry_run_no_write_no_sleep.1 17 sampleMonitor,
   dry_run_no_write_no_sleep.2.2 dryCli rfl (by decide)⟩

end MonitorInput
